import Mathlib

/-!
Verification of the position-accounting engine of a stock-portfolio tracker.

The engine is the function `get_portfolio_summary` of `app.py`: it folds an
ordered list of transaction records into per-instrument aggregates (a Python
`dict`, which preserves insertion order), then assembles valuation lines and
four portfolio totals from those aggregates and a current-price lookup.

Numeric fields are modelled as exact rationals (`ℚ`); Python's `int()` cast
(truncation toward zero) and `round(x, 2)` (round half to even at two decimal
places) are modelled by `pyInt` and `pyRound2` below.  The insertion-ordered
`dict` is modelled as an association list in which a new key is appended at
the end and an existing key is updated in place.
-/

/-- Python `int(q)`: truncation toward zero. -/
def pyInt (q : ℚ) : ℤ := if q < 0 then -⌊-q⌋ else ⌊q⌋

/-- Round a rational to the nearest integer, ties to even (Python `round`). -/
def roundHalfEven (q : ℚ) : ℤ :=
  if q - ⌊q⌋ < 1/2 then ⌊q⌋
  else if 1/2 < q - ⌊q⌋ then ⌊q⌋ + 1
  else if ⌊q⌋ % 2 = 0 then ⌊q⌋ else ⌊q⌋ + 1

/-- Python `round(q, 2)`: round to two decimal places, ties to even. -/
def pyRound2 (q : ℚ) : ℚ := (roundHalfEven (q * 100) : ℚ) / 100

/-- Characters of `cs` before the first `'.'` — `code.split(".")[0]` acts on
the underlying character list. -/
def takeBase : List Char → List Char
  | [] => []
  | c :: cs => if c = '.' then [] else c :: takeBase cs

/-- `code.split(".")[0]`: the part of the code before the first dot. -/
def baseOf (s : String) : String := ⟨takeBase s.data⟩

/-- `s.endswith(t)` on the underlying character lists. -/
def strEndsWith (s t : String) : Bool := List.isSuffixOf t.data s.data

/-- One row of the transaction ledger (`Date`, `Stock_Code`, `Stock_Name`,
`Type`, `Quantity`, `Price`, `Fee`, `Tax`).  `side` is the `Type` string; the
reducer treats exactly the string `"Buy"` as a buy and anything else as a
sell. -/
structure Tx where
  date : String
  code : String
  name : String
  side : String
  quantity : ℚ
  price : ℚ
  fee : ℚ
  tax : ℚ
deriving DecidableEq

/-- Per-instrument accumulator: the value stored in `summary[code]`. -/
structure Agg where
  name : String
  quantity : ℚ
  total_cost : ℚ
  buy_quantity : ℚ
  realized_profit : ℚ
  is_otc : Bool
deriving DecidableEq

/-- The freshly initialized aggregate for a first-seen instrument
(`app.py` lines 306–314). -/
def initAgg (tx : Tx) : Agg :=
  { name := tx.name
    quantity := 0
    total_cost := 0
    buy_quantity := 0
    realized_profit := 0
    is_otc := strEndsWith tx.code ".TWO" }

/-- The all-zero aggregate an absent instrument is read as. -/
def Agg.empty : Agg :=
  { name := "", quantity := 0, total_cost := 0, buy_quantity := 0
    realized_profit := 0, is_otc := false }

/-- `total_cost / buy_quantity if buy_quantity > 0 else 0`
(`app.py` lines 322 and 337). -/
def avgPrice (a : Agg) : ℚ :=
  if 0 < a.buy_quantity then a.total_cost / a.buy_quantity else 0

/-- One reducer step on a single aggregate (`app.py` lines 316–323).
A buy adds to `quantity`, `total_cost` and `buy_quantity`; anything else is a
sell: it subtracts from `quantity` and adds
`(price - avg_buy_price) * quantity - fee - tax` to `realized_profit`, where
`avg_buy_price` is computed from the aggregate before the step. -/
def updateAgg (a : Agg) (tx : Tx) : Agg :=
  if tx.side = "Buy" then
    { a with
      quantity := a.quantity + tx.quantity
      total_cost := a.total_cost + tx.quantity * tx.price + tx.fee + tx.tax
      buy_quantity := a.buy_quantity + tx.quantity }
  else
    { a with
      quantity := a.quantity - tx.quantity
      realized_profit :=
        a.realized_profit + (tx.price - avgPrice a) * tx.quantity
          - tx.fee - tx.tax }

/-- The insertion-ordered map `summary`. -/
abbrev Summary := List (String × Agg)

/-- Apply one transaction to `summary`: update the entry of `tx.code` in
place, or append a freshly initialized and then updated entry at the end
(`app.py` lines 304–323; Python dicts preserve insertion order). -/
def applyTx (s : Summary) (tx : Tx) : Summary :=
  match s with
  | [] => [(tx.code, updateAgg (initAgg tx) tx)]
  | (c, a) :: rest =>
      if c = tx.code then (c, updateAgg a tx) :: rest
      else (c, a) :: applyTx rest tx

/-- Fold the transaction list into `summary`, starting from state `s`. -/
def reduceFrom (s : Summary) (txs : List Tx) : Summary :=
  txs.foldl applyTx s

/-- The ledger reducer: `summary` after the loop of `app.py` lines 303–323. -/
def reduce (txs : List Tx) : Summary := reduceFrom [] txs

/-- Look up an instrument's aggregate in `summary`. -/
def lookupAgg : Summary → String → Option Agg
  | [], _ => none
  | (c, a) :: rest, code => if c = code then some a else lookupAgg rest code

/-- Aggregate of `code`, the all-zero aggregate if absent. -/
def getAgg (s : Summary) (code : String) : Agg :=
  (lookupAgg s code).getD Agg.empty

/-- One output row of the summary (`app.py` lines 345–355). -/
structure Line where
  code : String
  name : String
  quantity : ℤ
  avg_buy_price : ℚ
  current_price : ℚ
  total_cost : ℤ
  market_value : ℤ
  unrealized_profit : ℤ
  realized_profit : ℤ
deriving DecidableEq

/-- The output row built for one open position (`app.py` lines 334–355).
`prices` models `fetch_stock_info`: it receives the code stripped of its
market suffix and the OTC flag and returns the current price. -/
def mkLine (prices : String → Bool → ℚ) (code : String) (data : Agg) : Line :=
  { code := code
    name := data.name
    quantity := pyInt data.quantity
    avg_buy_price := pyRound2 (avgPrice data)
    current_price := pyRound2 (prices (baseOf code) data.is_otc)
    total_cost := pyInt data.total_cost
    market_value := pyInt (data.quantity * prices (baseOf code) data.is_otc)
    unrealized_profit :=
      pyInt (if 0 < data.quantity
             then (prices (baseOf code) data.is_otc - avgPrice data) * data.quantity
             else 0)
    realized_profit := pyInt data.realized_profit }

/-- The assembly loop of `app.py` lines 325–355: walk `summary` in insertion
order, skip entries with `quantity <= 0`, emit a `Line` for the others and
accumulate the four exact (unrounded) totals. -/
def assembleGo (prices : String → Bool → ℚ) :
    Summary → List Line × ℚ × ℚ × ℚ × ℚ
  | [] => ([], 0, 0, 0, 0)
  | (code, data) :: rest =>
      let r := assembleGo prices rest
      if data.quantity ≤ 0 then r
      else
        (mkLine prices code data :: r.1,
         data.total_cost + r.2.1,
         data.quantity * prices (baseOf code) data.is_otc + r.2.2.1,
         (if 0 < data.quantity
          then (prices (baseOf code) data.is_otc - avgPrice data) * data.quantity
          else 0) + r.2.2.2.1,
         data.realized_profit + r.2.2.2.2)

/-- `get_portfolio_summary` (`app.py` lines 296–357): empty input returns the
empty summary; otherwise reduce, assemble, and cast the totals with `int()`. -/
def get_portfolio_summary (txs : List Tx) (prices : String → Bool → ℚ) :
    List Line × ℤ × ℤ × ℤ × ℤ :=
  if txs.isEmpty then ([], 0, 0, 0, 0)
  else
    let r := assembleGo prices (reduce txs)
    (r.1, pyInt r.2.1, pyInt r.2.2.1, pyInt r.2.2.2.1, pyInt r.2.2.2.2)

/-- Agreement of two aggregates on all four numeric fields (they may differ
in `name` and `is_otc`). -/
def Agg.numEq (a b : Agg) : Prop :=
  a.quantity = b.quantity ∧ a.total_cost = b.total_cost ∧
  a.buy_quantity = b.buy_quantity ∧ a.realized_profit = b.realized_profit

/-- Instrument codes in order of first occurrence, continuing from `acc`. -/
def firstCodesFrom (acc : List String) : List Tx → List String
  | [] => acc
  | tx :: txs => firstCodesFrom (if tx.code ∈ acc then acc else acc ++ [tx.code]) txs

/-- Instrument codes in order of their first occurrence in the ledger. -/
def firstCodes (txs : List Tx) : List String := firstCodesFrom [] txs

/-- The display name carried by the first transaction of `c` in the ledger. -/
def firstNameOf (txs : List Tx) (c : String) : String :=
  ((txs.find? fun tx => tx.code = c).map Tx.name).getD ""

/-- Cumulative realized profit over all aggregates of a summary. -/
def totalRealized (s : Summary) : ℚ :=
  (s.map fun p => p.2.realized_profit).sum

/-- Constant price lookup (every instrument quotes at `p`). -/
def flatPrice (p : ℚ) : String → Bool → ℚ := fun _ _ => p

/-- Concrete ledger rows used in the scenario theorems. -/
def txB50 : Tx :=
  { date := "2024-01-01", code := "2330.TW", name := "TSMC", side := "Buy"
    quantity := 1000, price := 50, fee := 20, tax := 0 }

def txB70 : Tx :=
  { date := "2024-01-02", code := "2330.TW", name := "TSMC", side := "Buy"
    quantity := 1000, price := 70, fee := 20, tax := 0 }

def txS60 : Tx :=
  { date := "2024-01-03", code := "2330.TW", name := "TSMC", side := "Sell"
    quantity := 1000, price := 60, fee := 20, tax := 0 }

/-- A buy whose cost basis lands on the fraction `100000.4`. -/
def txFee04 : Tx :=
  { date := "2024-01-01", code := "2330.TW", name := "TSMC", side := "Buy"
    quantity := 1000, price := 100, fee := 2/5, tax := 0 }

/-- Binary64 rounding (round to nearest, ties to even, 53-bit precision):
the value a Python float assumes for an exact rational result.  Handles
nonzero finite values in the normal range; every number in the verified
computations stays far inside it, so no overflow or subnormal cases arise. -/
def fl64 (x : ℚ) : ℚ :=
  if x = 0 then 0
  else if x < 0 then
    -((roundHalfEven (|x| * 2 ^ ((52 : ℤ) - Int.log 2 |x|)) : ℚ) *
        2 ^ (Int.log 2 |x| - 52))
  else
    (roundHalfEven (|x| * 2 ^ ((52 : ℤ) - Int.log 2 |x|)) : ℚ) *
      2 ^ (Int.log 2 |x| - 52)

/-- Binary64 addition: exact sum rounded to the nearest double. -/
def fadd (a b : ℚ) : ℚ := fl64 (a + b)

/-- Binary64 subtraction. -/
def fsub (a b : ℚ) : ℚ := fl64 (a - b)

/-- Binary64 multiplication. -/
def fmul (a b : ℚ) : ℚ := fl64 (a * b)

/-- Binary64 division. -/
def fdiv (a b : ℚ) : ℚ := fl64 (a / b)

/-- Python `round(x, 2)` on a double: the exact two-decimal rounding of the
double's value, re-rounded to the nearest double. -/
def pyRound2F (x : ℚ) : ℚ := fl64 (pyRound2 x)

/-- `avg_buy_price` as the program computes it in doubles
(`app.py` lines 322 and 337). -/
def avgPriceF (a : Agg) : ℚ :=
  if 0 < a.buy_quantity then fdiv a.total_cost a.buy_quantity else 0

/-- One reducer step in binary64 arithmetic: the same update as `updateAgg`
but with every `+`, `-`, `*` of `app.py` lines 316–323 rounded to the
nearest double, in the source's evaluation order. -/
def updateAggF (a : Agg) (tx : Tx) : Agg :=
  if tx.side = "Buy" then
    { a with
      quantity := fadd a.quantity tx.quantity
      total_cost := fadd a.total_cost
        (fadd (fadd (fmul tx.quantity tx.price) tx.fee) tx.tax)
      buy_quantity := fadd a.buy_quantity tx.quantity }
  else
    { a with
      quantity := fsub a.quantity tx.quantity
      realized_profit := fadd a.realized_profit
        (fsub (fsub (fmul (fsub tx.price (avgPriceF a)) tx.quantity) tx.fee)
          tx.tax) }

/-- `applyTx` with binary64 arithmetic. -/
def applyTxF (s : Summary) (tx : Tx) : Summary :=
  match s with
  | [] => [(tx.code, updateAggF (initAgg tx) tx)]
  | (c, a) :: rest =>
      if c = tx.code then (c, updateAggF a tx) :: rest
      else (c, a) :: applyTxF rest tx

/-- The ledger fold with binary64 arithmetic. -/
def reduceFromF (s : Summary) (txs : List Tx) : Summary :=
  txs.foldl applyTxF s

/-- The ledger reducer with binary64 arithmetic. -/
def reduceF (txs : List Tx) : Summary := reduceFromF [] txs

/-- The output row in binary64 arithmetic (`app.py` lines 334–355). -/
def mkLineF (prices : String → Bool → ℚ) (code : String) (data : Agg) : Line :=
  { code := code
    name := data.name
    quantity := pyInt data.quantity
    avg_buy_price := pyRound2F (avgPriceF data)
    current_price := pyRound2F (prices (baseOf code) data.is_otc)
    total_cost := pyInt data.total_cost
    market_value := pyInt (fmul data.quantity (prices (baseOf code) data.is_otc))
    unrealized_profit :=
      pyInt (if 0 < data.quantity
             then fmul (fsub (prices (baseOf code) data.is_otc) (avgPriceF data))
               data.quantity
             else 0)
    realized_profit := pyInt data.realized_profit }

/-- The assembly loop in binary64 arithmetic.  Unlike the exact model, the
accumulator is threaded left to right because float addition is not
associative; this mirrors the `+=` accumulation of `app.py` lines 325–343. -/
def assembleGoF (prices : String → Bool → ℚ) :
    Summary → List Line × ℚ × ℚ × ℚ × ℚ → List Line × ℚ × ℚ × ℚ × ℚ
  | [], acc => acc
  | (code, data) :: rest, (ls, tc, tmv, tup, trp) =>
      if data.quantity ≤ 0 then assembleGoF prices rest (ls, tc, tmv, tup, trp)
      else
        assembleGoF prices rest
          (ls ++ [mkLineF prices code data],
           fadd tc data.total_cost,
           fadd tmv (fmul data.quantity (prices (baseOf code) data.is_otc)),
           fadd tup (if 0 < data.quantity
                     then fmul (fsub (prices (baseOf code) data.is_otc)
                       (avgPriceF data)) data.quantity
                     else 0),
           fadd trp data.realized_profit)

/-- `get_portfolio_summary` in binary64 arithmetic
(`app.py` lines 296–357 under Python float semantics). -/
def get_portfolio_summaryF (txs : List Tx) (prices : String → Bool → ℚ) :
    List Line × ℤ × ℤ × ℤ × ℤ :=
  if txs.isEmpty then ([], 0, 0, 0, 0)
  else
    let r := assembleGoF prices (reduceF txs) ([], 0, 0, 0, 0)
    (r.1, pyInt r.2.1, pyInt r.2.2.1, pyInt r.2.2.2.1, pyInt r.2.2.2.2)

/-! ### Field behaviour of a single reducer step -/

theorem updateAgg_name (a : Agg) (tx : Tx) : (updateAgg a tx).name = a.name := by
  unfold updateAgg; split <;> rfl

theorem updateAgg_is_otc (a : Agg) (tx : Tx) :
    (updateAgg a tx).is_otc = a.is_otc := by
  unfold updateAgg; split <;> rfl

theorem updateAgg_quantity (a : Agg) (tx : Tx) :
    (updateAgg a tx).quantity =
      if tx.side = "Buy" then a.quantity + tx.quantity
      else a.quantity - tx.quantity := by
  unfold updateAgg; split <;> rfl

theorem updateAgg_total_cost (a : Agg) (tx : Tx) :
    (updateAgg a tx).total_cost =
      if tx.side = "Buy"
      then a.total_cost + tx.quantity * tx.price + tx.fee + tx.tax
      else a.total_cost := by
  unfold updateAgg; split <;> rfl

theorem updateAgg_buy_quantity (a : Agg) (tx : Tx) :
    (updateAgg a tx).buy_quantity =
      if tx.side = "Buy" then a.buy_quantity + tx.quantity
      else a.buy_quantity := by
  unfold updateAgg; split <;> rfl

theorem updateAgg_realized_profit (a : Agg) (tx : Tx) :
    (updateAgg a tx).realized_profit =
      if tx.side = "Buy" then a.realized_profit
      else a.realized_profit + (tx.price - avgPrice a) * tx.quantity
             - tx.fee - tx.tax := by
  unfold updateAgg; split <;> rfl

/-! ### The reducer step on the whole summary map -/

theorem lookupAgg_applyTx_self (s : Summary) (tx : Tx) :
    lookupAgg (applyTx s tx) tx.code =
      some (updateAgg ((lookupAgg s tx.code).getD (initAgg tx)) tx) := by
  induction s with
  | nil => simp [applyTx, lookupAgg]
  | cons p rest ih =>
      obtain ⟨c0, a0⟩ := p
      by_cases h0 : c0 = tx.code
      · subst h0
        simp [applyTx, lookupAgg]
      · simp [applyTx, lookupAgg, h0, ih]

theorem lookupAgg_applyTx_ne (s : Summary) (tx : Tx) (c : String)
    (h : c ≠ tx.code) : lookupAgg (applyTx s tx) c = lookupAgg s c := by
  have h' : ¬ (tx.code = c) := fun e => h e.symm
  induction s with
  | nil =>
      simp [applyTx, lookupAgg, h']
  | cons p rest ih =>
      obtain ⟨c0, a0⟩ := p
      by_cases h0 : c0 = tx.code
      · subst h0
        simp [applyTx, lookupAgg, h']
      · by_cases hc : c0 = c
        · subst hc
          simp [applyTx, lookupAgg, h0]
        · simp [applyTx, lookupAgg, h0, hc, ih]

theorem getAgg_applyTx_ne (s : Summary) (tx : Tx) (c : String)
    (h : c ≠ tx.code) : getAgg (applyTx s tx) c = getAgg s c := by
  unfold getAgg; rw [lookupAgg_applyTx_ne s tx c h]

theorem numEq_refl (a : Agg) : Agg.numEq a a := ⟨rfl, rfl, rfl, rfl⟩

theorem avgPrice_congr {a b : Agg} (h : Agg.numEq a b) :
    avgPrice a = avgPrice b := by
  obtain ⟨h1, h2, h3, h4⟩ := h
  unfold avgPrice; rw [h2, h3]

theorem updateAgg_congr {a b : Agg} (h : Agg.numEq a b) (tx : Tx) :
    Agg.numEq (updateAgg a tx) (updateAgg b tx) := by
  obtain ⟨h1, h2, h3, h4⟩ := h
  unfold Agg.numEq updateAgg
  split
  · exact ⟨by rw [h1], by rw [h2], by rw [h3], h4⟩
  · refine ⟨by rw [h1], h2, h3, ?_⟩
    rw [h4, h2, h3, avgPrice_congr ⟨h1, h2, h3, h4⟩]

theorem getD_init_numEq (s : Summary) (tx : Tx) :
    Agg.numEq ((lookupAgg s tx.code).getD (initAgg tx)) (getAgg s tx.code) := by
  unfold getAgg
  cases h : lookupAgg s tx.code with
  | none => exact ⟨rfl, rfl, rfl, rfl⟩
  | some a => exact numEq_refl a

theorem getAgg_applyTx_self (s : Summary) (tx : Tx) :
    Agg.numEq (getAgg (applyTx s tx) tx.code)
      (updateAgg (getAgg s tx.code) tx) := by
  unfold getAgg
  rw [lookupAgg_applyTx_self s tx]
  exact updateAgg_congr (getD_init_numEq s tx) tx

/-! ### Sells never touch the cost components; replay = buy history -/

theorem applyTx_sell_costs (s : Summary) (tx : Tx) (hb : ¬ tx.side = "Buy")
    (c : String) :
    (getAgg (applyTx s tx) c).total_cost = (getAgg s c).total_cost ∧
    (getAgg (applyTx s tx) c).buy_quantity = (getAgg s c).buy_quantity := by
  by_cases hc : c = tx.code
  · subst hc
    have e := getAgg_applyTx_self s tx
    constructor
    · rw [e.2.1, updateAgg_total_cost]; simp [hb]
    · rw [e.2.2.1, updateAgg_buy_quantity]; simp [hb]
  · rw [getAgg_applyTx_ne s tx c hc]
    exact ⟨rfl, rfl⟩

theorem applyTx_congr_costs {s s' : Summary} (tx : Tx)
    (h : ∀ c, (getAgg s c).total_cost = (getAgg s' c).total_cost ∧
              (getAgg s c).buy_quantity = (getAgg s' c).buy_quantity)
    (c : String) :
    (getAgg (applyTx s tx) c).total_cost = (getAgg (applyTx s' tx) c).total_cost ∧
    (getAgg (applyTx s tx) c).buy_quantity = (getAgg (applyTx s' tx) c).buy_quantity := by
  by_cases hc : c = tx.code
  · subst hc
    have e1 := getAgg_applyTx_self s tx
    have e2 := getAgg_applyTx_self s' tx
    constructor
    · rw [e1.2.1, e2.2.1, updateAgg_total_cost, updateAgg_total_cost,
          (h tx.code).1]
    · rw [e1.2.2.1, e2.2.2.1, updateAgg_buy_quantity, updateAgg_buy_quantity,
          (h tx.code).2]
  · rw [getAgg_applyTx_ne s tx c hc, getAgg_applyTx_ne s' tx c hc]
    exact h c

theorem reduceFrom_filter_costs (txs : List Tx) : ∀ (s s' : Summary),
    (∀ c, (getAgg s c).total_cost = (getAgg s' c).total_cost ∧
          (getAgg s c).buy_quantity = (getAgg s' c).buy_quantity) →
    ∀ c,
      (getAgg (reduceFrom s txs) c).total_cost =
        (getAgg (reduceFrom s' (txs.filter fun t => t.side = "Buy")) c).total_cost ∧
      (getAgg (reduceFrom s txs) c).buy_quantity =
        (getAgg (reduceFrom s' (txs.filter fun t => t.side = "Buy")) c).buy_quantity := by
  induction txs with
  | nil => intro s s' h c; exact h c
  | cons tx txs ih =>
      intro s s' h c
      by_cases hb : tx.side = "Buy"
      · have hf : (tx :: txs).filter (fun t => t.side = "Buy") =
            tx :: txs.filter (fun t => t.side = "Buy") := by
          simp [List.filter_cons, hb]
        rw [hf]
        exact ih (applyTx s tx) (applyTx s' tx)
          (fun c' => applyTx_congr_costs tx h c') c
      · have hf : (tx :: txs).filter (fun t => t.side = "Buy") =
            txs.filter (fun t => t.side = "Buy") := by
          simp [List.filter_cons, hb]
        rw [hf]
        refine ih (applyTx s tx) s' (fun c' => ?_) c
        exact ⟨((applyTx_sell_costs s tx hb c').1).trans (h c').1,
               ((applyTx_sell_costs s tx hb c').2).trans (h c').2⟩

/-! ### All-buy ledgers -/

theorem applyTx_buy_inv (s : Summary) (tx : Tx) (hb : tx.side = "Buy")
    (h : ∀ c, (getAgg s c).realized_profit = 0 ∧
              (getAgg s c).quantity = (getAgg s c).buy_quantity)
    (c : String) :
    (getAgg (applyTx s tx) c).realized_profit = 0 ∧
    (getAgg (applyTx s tx) c).quantity = (getAgg (applyTx s tx) c).buy_quantity := by
  by_cases hc : c = tx.code
  · subst hc
    have e := getAgg_applyTx_self s tx
    constructor
    · rw [e.2.2.2, updateAgg_realized_profit]
      simp [hb, (h tx.code).1]
    · rw [e.1, e.2.2.1, updateAgg_quantity, updateAgg_buy_quantity]
      simp [hb, (h tx.code).2]
  · rw [getAgg_applyTx_ne s tx c hc]
    exact h c

theorem reduceFrom_allBuys (txs : List Tx) : ∀ (s : Summary),
    (∀ tx ∈ txs, tx.side = "Buy") →
    (∀ c, (getAgg s c).realized_profit = 0 ∧
          (getAgg s c).quantity = (getAgg s c).buy_quantity) →
    ∀ c, (getAgg (reduceFrom s txs) c).realized_profit = 0 ∧
         (getAgg (reduceFrom s txs) c).quantity =
           (getAgg (reduceFrom s txs) c).buy_quantity := by
  induction txs with
  | nil => intro s _ h c; exact h c
  | cons tx txs ih =>
      intro s hall h c
      exact ih (applyTx s tx) (fun t ht => hall t (List.mem_cons_of_mem tx ht))
        (applyTx_buy_inv s tx (hall tx (List.mem_cons_self tx txs)) h) c

/-! ### Keys, insertion order and display names -/

theorem keys_applyTx (s : Summary) (tx : Tx) :
    (applyTx s tx).map Prod.fst =
      if tx.code ∈ s.map Prod.fst then s.map Prod.fst
      else s.map Prod.fst ++ [tx.code] := by
  induction s with
  | nil => simp [applyTx]
  | cons p rest ih =>
      obtain ⟨c0, a0⟩ := p
      by_cases h0 : c0 = tx.code
      · subst h0
        simp [applyTx]
      · have h0' : ¬ tx.code = c0 := fun e => h0 e.symm
        by_cases hm : tx.code ∈ rest.map Prod.fst
        · simp [applyTx, h0, h0', hm, ih]
        · simp [applyTx, h0, h0', hm, ih]

theorem keys_reduceFrom (txs : List Tx) : ∀ s : Summary,
    (reduceFrom s txs).map Prod.fst = firstCodesFrom (s.map Prod.fst) txs := by
  induction txs with
  | nil => intro s; rfl
  | cons tx txs ih =>
      intro s
      have h1 : reduceFrom s (tx :: txs) = reduceFrom (applyTx s tx) txs := rfl
      rw [h1, ih (applyTx s tx), keys_applyTx, firstCodesFrom]

theorem keysNodup_applyTx (s : Summary) (tx : Tx)
    (h : (s.map Prod.fst).Nodup) : ((applyTx s tx).map Prod.fst).Nodup := by
  rw [keys_applyTx]
  by_cases hm : tx.code ∈ s.map Prod.fst
  · rw [if_pos hm]; exact h
  · rw [if_neg hm]
    simp [List.nodup_append, h, hm]

theorem keysNodup_reduceFrom (txs : List Tx) : ∀ s : Summary,
    (s.map Prod.fst).Nodup → ((reduceFrom s txs).map Prod.fst).Nodup := by
  induction txs with
  | nil => intro s hs; exact hs
  | cons tx txs ih => intro s hs; exact ih (applyTx s tx) (keysNodup_applyTx s tx hs)

theorem nameOf_applyTx (s : Summary) (tx : Tx) (c : String) :
    (lookupAgg (applyTx s tx) c).map Agg.name =
      if c = tx.code
      then ((lookupAgg s c).map Agg.name).or (some tx.name)
      else (lookupAgg s c).map Agg.name := by
  by_cases hc : c = tx.code
  · subst hc
    rw [lookupAgg_applyTx_self, if_pos rfl]
    cases h : lookupAgg s tx.code with
    | none => simp [updateAgg_name, initAgg]
    | some a => simp [updateAgg_name]
  · rw [lookupAgg_applyTx_ne s tx c hc, if_neg hc]

theorem nameOf_reduceFrom (txs : List Tx) : ∀ (s : Summary) (c : String),
    (lookupAgg (reduceFrom s txs) c).map Agg.name =
      ((lookupAgg s c).map Agg.name).or
        ((txs.find? fun tx => tx.code = c).map Tx.name) := by
  induction txs with
  | nil => intro s c; simp [reduceFrom]
  | cons tx txs ih =>
      intro s c
      have h1 : reduceFrom s (tx :: txs) = reduceFrom (applyTx s tx) txs := rfl
      rw [h1, ih (applyTx s tx) c, nameOf_applyTx]
      by_cases hc : c = tx.code
      · subst hc
        rw [if_pos rfl]
        have hf : (tx :: txs).find? (fun t => t.code = tx.code) = some tx :=
          List.find?_cons_of_pos _ (by simp)
        rw [hf, Option.or_assoc]
        simp
      · rw [if_neg hc]
        have hc' : ¬ (tx.code = c) := fun e => hc e.symm
        have hf : (tx :: txs).find? (fun t => t.code = c) =
            txs.find? (fun t => t.code = c) :=
          List.find?_cons_of_neg _ (by simp [hc'])
        rw [hf]

/-! ### The assembler as filter-and-map -/

theorem assembleGo_eq (prices : String → Bool → ℚ) (s : Summary) :
    assembleGo prices s =
      ((s.filter fun p => 0 < p.2.quantity).map fun p => mkLine prices p.1 p.2,
       ((s.filter fun p => 0 < p.2.quantity).map fun p => p.2.total_cost).sum,
       ((s.filter fun p => 0 < p.2.quantity).map fun p =>
          p.2.quantity * prices (baseOf p.1) p.2.is_otc).sum,
       ((s.filter fun p => 0 < p.2.quantity).map fun p =>
          if 0 < p.2.quantity
          then (prices (baseOf p.1) p.2.is_otc - avgPrice p.2) * p.2.quantity
          else 0).sum,
       ((s.filter fun p => 0 < p.2.quantity).map fun p => p.2.realized_profit).sum) := by
  induction s with
  | nil => rfl
  | cons p rest ih =>
      obtain ⟨code, data⟩ := p
      by_cases hq : data.quantity ≤ 0
      · have hq' : ¬ 0 < data.quantity := not_lt.mpr hq
        simp [assembleGo, hq, hq', ih, List.filter_cons]
      · have hq' : 0 < data.quantity := lt_of_not_le hq
        simp [assembleGo, hq, hq', ih, List.filter_cons]

theorem lookupAgg_cons_self (c : String) (a : Agg) (rest : Summary) :
    lookupAgg ((c, a) :: rest) c = some a := by
  simp [lookupAgg]

theorem getAgg_cons_ne (c0 : String) (a0 : Agg) (rest : Summary) (c : String)
    (h : ¬ c0 = c) : getAgg ((c0, a0) :: rest) c = getAgg rest c := by
  simp [getAgg, lookupAgg, h]

theorem filter_map_keys (s : Summary) (h : (s.map Prod.fst).Nodup) :
    ((s.filter fun p => 0 < p.2.quantity).map fun p => (p.1, p.2.name)) =
      (((s.map Prod.fst).filter fun c => 0 < (getAgg s c).quantity).map
        fun c => (c, (getAgg s c).name)) := by
  induction s with
  | nil => rfl
  | cons p rest ih =>
      obtain ⟨c0, a0⟩ := p
      have h0 : c0 ∉ rest.map Prod.fst := (List.nodup_cons.mp h).1
      have hrest : (rest.map Prod.fst).Nodup := (List.nodup_cons.mp h).2
      have hget : getAgg ((c0, a0) :: rest) c0 = a0 := by
        simp [getAgg, lookupAgg_cons_self]
      have htail :
          (((rest.map Prod.fst).filter
              fun c => 0 < (getAgg ((c0, a0) :: rest) c).quantity).map
            fun c => (c, (getAgg ((c0, a0) :: rest) c).name)) =
          (((rest.map Prod.fst).filter fun c => 0 < (getAgg rest c).quantity).map
            fun c => (c, (getAgg rest c).name)) := by
        have hpt : ∀ c ∈ rest.map Prod.fst,
            getAgg ((c0, a0) :: rest) c = getAgg rest c := by
          intro c hcm
          have : ¬ c0 = c := fun e => h0 (e ▸ hcm)
          exact getAgg_cons_ne c0 a0 rest c this
        rw [List.filter_congr (by intro c hcm; rw [hpt c hcm])]
        apply List.map_congr_left
        intro c hcm
        rw [hpt c (List.mem_of_mem_filter hcm)]
      by_cases hq : 0 < a0.quantity
      · simp only [List.map_cons, List.filter_cons, hget, hq, decide_True,
          if_true, List.map_cons, ih hrest, htail]
      · simp [List.map_cons, List.filter_cons, hget, hq, ih hrest, htail]

/-! ### Claim theorems -/

/-- C4: in any replay state, a buy transaction updates its instrument's
aggregate by exactly `quantity += tx.quantity`,
`total_cost += tx.quantity * tx.unit_price + tx.fee + tx.tax` and
`buy_quantity += tx.quantity`, leaving `realized_profit` unchanged. -/
theorem buy_step_updates (s : Summary) (tx : Tx) (hb : tx.side = "Buy") :
    (getAgg (applyTx s tx) tx.code).quantity =
      (getAgg s tx.code).quantity + tx.quantity ∧
    (getAgg (applyTx s tx) tx.code).total_cost =
      (getAgg s tx.code).total_cost + tx.quantity * tx.price + tx.fee + tx.tax ∧
    (getAgg (applyTx s tx) tx.code).buy_quantity =
      (getAgg s tx.code).buy_quantity + tx.quantity ∧
    (getAgg (applyTx s tx) tx.code).realized_profit =
      (getAgg s tx.code).realized_profit := by
  have e := getAgg_applyTx_self s tx
  refine ⟨?_, ?_, ?_, ?_⟩
  · rw [e.1, updateAgg_quantity, if_pos hb]
  · rw [e.2.1, updateAgg_total_cost, if_pos hb]
  · rw [e.2.2.1, updateAgg_buy_quantity, if_pos hb]
  · rw [e.2.2.2, updateAgg_realized_profit, if_pos hb]

theorem buy_step_updates_witness :
    txB50.side = "Buy" ∧
    ((getAgg (applyTx [] txB50) txB50.code).quantity =
      (getAgg [] txB50.code).quantity + txB50.quantity ∧
    (getAgg (applyTx [] txB50) txB50.code).total_cost =
      (getAgg [] txB50.code).total_cost + txB50.quantity * txB50.price
        + txB50.fee + txB50.tax ∧
    (getAgg (applyTx [] txB50) txB50.code).buy_quantity =
      (getAgg [] txB50.code).buy_quantity + txB50.quantity ∧
    (getAgg (applyTx [] txB50) txB50.code).realized_profit =
      (getAgg [] txB50.code).realized_profit) :=
  ⟨rfl, buy_step_updates [] txB50 rfl⟩

/-- C6: a sell hitting an aggregate whose `buy_quantity` is zero is not an
error; it uses `avg_buy_price = 0`, so the realized-profit contribution is the
full proceeds minus fee and tax. -/
theorem sell_zero_buy_quantity (s : Summary) (tx : Tx) (hb : ¬ tx.side = "Buy")
    (h0 : (getAgg s tx.code).buy_quantity = 0) :
    (getAgg (applyTx s tx) tx.code).realized_profit =
      (getAgg s tx.code).realized_profit
        + tx.price * tx.quantity - tx.fee - tx.tax := by
  have e := getAgg_applyTx_self s tx
  rw [e.2.2.2, updateAgg_realized_profit, if_neg hb, avgPrice, h0]
  norm_num

theorem sell_zero_buy_quantity_witness :
    (¬ txS60.side = "Buy") ∧ (getAgg [] txS60.code).buy_quantity = 0 ∧
    (getAgg (applyTx [] txS60) txS60.code).realized_profit =
      (getAgg [] txS60.code).realized_profit
        + txS60.price * txS60.quantity - txS60.fee - txS60.tax := by
  have hb : ¬ txS60.side = "Buy" := by simp [txS60]
  exact ⟨hb, rfl, sell_zero_buy_quantity [] txS60 hb rfl⟩

/-- C7: after replaying a ledger that contains only buys, every instrument's
aggregate has `realized_profit = 0` and `quantity = buy_quantity`. -/
theorem all_buys_invariant (txs : List Tx) (h : ∀ tx ∈ txs, tx.side = "Buy")
    (c : String) :
    (getAgg (reduce txs) c).realized_profit = 0 ∧
    (getAgg (reduce txs) c).quantity = (getAgg (reduce txs) c).buy_quantity :=
  reduceFrom_allBuys txs [] h (fun _ => ⟨rfl, rfl⟩) c

theorem all_buys_invariant_witness :
    (∀ tx ∈ [txB50, txB70], tx.side = "Buy") ∧
    ((getAgg (reduce [txB50, txB70]) "2330.TW").realized_profit = 0 ∧
     (getAgg (reduce [txB50, txB70]) "2330.TW").quantity =
       (getAgg (reduce [txB50, txB70]) "2330.TW").buy_quantity) := by
  have h : ∀ tx ∈ [txB50, txB70], tx.side = "Buy" := by
    intro tx htx
    simp only [List.mem_cons, List.not_mem_nil, or_false] at htx
    rcases htx with rfl | rfl <;> rfl
  exact ⟨h, all_buys_invariant [txB50, txB70] h "2330.TW"⟩

/-- C8: the reduction is a left fold, so replaying `[tx1]` and continuing the
fold on the remaining transactions from the resulting state yields the same
aggregates and the same cumulative realized profit as a single pass; in
general the fold composes over list concatenation. -/
theorem fold_left_composes :
    (∀ (tx1 : Tx) (txs : List Tx),
        reduceFrom (reduce [tx1]) txs = reduce (tx1 :: txs) ∧
        totalRealized (reduceFrom (reduce [tx1]) txs) =
          totalRealized (reduce (tx1 :: txs))) ∧
    (∀ (s : Summary) (l1 l2 : List Tx),
        reduceFrom (reduceFrom s l1) l2 = reduceFrom s (l1 ++ l2)) := by
  constructor
  · intro tx1 txs
    exact ⟨rfl, rfl⟩
  · intro s l1 l2
    rw [reduceFrom, reduceFrom, reduceFrom, List.foldl_append]

/-- C9: a sell transaction changes only the aggregate stored under its own
instrument code; the entry of every other instrument — including its absence
or presence — is untouched. -/
theorem sell_frame (s : Summary) (tx : Tx) (c : String)
    (_hb : ¬ tx.side = "Buy") (hc : c ≠ tx.code) :
    lookupAgg (applyTx s tx) c = lookupAgg s c ∧
    getAgg (applyTx s tx) c = getAgg s c :=
  ⟨lookupAgg_applyTx_ne s tx c hc, getAgg_applyTx_ne s tx c hc⟩

theorem sell_frame_witness :
    (¬ txS60.side = "Buy") ∧ "1101.TW" ≠ txS60.code ∧
    (lookupAgg (applyTx [] txS60) "1101.TW" = lookupAgg [] "1101.TW" ∧
     getAgg (applyTx [] txS60) "1101.TW" = getAgg [] "1101.TW") := by
  have hb : ¬ txS60.side = "Buy" := by simp [txS60]
  have hc : "1101.TW" ≠ txS60.code := by simp [txS60]
  exact ⟨hb, hc, sell_frame [] txS60 "1101.TW" hb hc⟩

/-- C1: a sell computes `avg_buy_price = total_cost / buy_quantity` (0 when
`buy_quantity = 0`) from the state before it is applied, subtracts its
quantity from `quantity`, adds
`(unit_price - avg_buy_price) * quantity - fee - tax` to `realized_profit`,
and leaves `total_cost` and `buy_quantity` unchanged; consequently after any
replay the cost components — and hence `avg_buy_price` — agree with those of
the buy-only sub-ledger, independent of interleaved sells. -/
theorem sell_step_and_replay :
    (∀ (s : Summary) (tx : Tx), ¬ tx.side = "Buy" →
        (getAgg (applyTx s tx) tx.code).total_cost =
          (getAgg s tx.code).total_cost ∧
        (getAgg (applyTx s tx) tx.code).buy_quantity =
          (getAgg s tx.code).buy_quantity ∧
        (getAgg (applyTx s tx) tx.code).quantity =
          (getAgg s tx.code).quantity - tx.quantity ∧
        (getAgg (applyTx s tx) tx.code).realized_profit =
          (getAgg s tx.code).realized_profit +
            (tx.price -
              (if 0 < (getAgg s tx.code).buy_quantity
               then (getAgg s tx.code).total_cost /
                 (getAgg s tx.code).buy_quantity
               else 0)) * tx.quantity - tx.fee - tx.tax) ∧
    (∀ (txs : List Tx) (c : String),
        (getAgg (reduce txs) c).total_cost =
          (getAgg (reduce (txs.filter fun t => t.side = "Buy")) c).total_cost ∧
        (getAgg (reduce txs) c).buy_quantity =
          (getAgg (reduce (txs.filter fun t => t.side = "Buy")) c).buy_quantity ∧
        avgPrice (getAgg (reduce txs) c) =
          avgPrice (getAgg (reduce (txs.filter fun t => t.side = "Buy")) c)) := by
  constructor
  · intro s tx hb
    have e := getAgg_applyTx_self s tx
    refine ⟨?_, ?_, ?_, ?_⟩
    · rw [e.2.1, updateAgg_total_cost, if_neg hb]
    · rw [e.2.2.1, updateAgg_buy_quantity, if_neg hb]
    · rw [e.1, updateAgg_quantity, if_neg hb]
    · rw [e.2.2.2, updateAgg_realized_profit, if_neg hb, avgPrice]
  · intro txs c
    have h := reduceFrom_filter_costs txs [] [] (fun _ => ⟨rfl, rfl⟩) c
    refine ⟨h.1, h.2, ?_⟩
    rw [avgPrice, avgPrice]
    simp only [reduce]
    rw [h.1, h.2]

theorem sell_step_and_replay_witness :
    (¬ txS60.side = "Buy") ∧
    ((getAgg (applyTx [] txS60) txS60.code).total_cost =
      (getAgg [] txS60.code).total_cost ∧
    (getAgg (applyTx [] txS60) txS60.code).buy_quantity =
      (getAgg [] txS60.code).buy_quantity ∧
    (getAgg (applyTx [] txS60) txS60.code).quantity =
      (getAgg [] txS60.code).quantity - txS60.quantity ∧
    (getAgg (applyTx [] txS60) txS60.code).realized_profit =
      (getAgg [] txS60.code).realized_profit +
        (txS60.price -
          (if 0 < (getAgg [] txS60.code).buy_quantity
           then (getAgg [] txS60.code).total_cost /
             (getAgg [] txS60.code).buy_quantity
           else 0)) * txS60.quantity - txS60.fee - txS60.tax) := by
  have hb : ¬ txS60.side = "Buy" := by simp [txS60]
  exact ⟨hb, sell_step_and_replay.1 [] txS60 hb⟩

/-- C3: the assembler emits a line only for instruments whose current
quantity is strictly positive, and the cost and realized-profit totals sum
over exactly those instruments, so a closed position's realized profit is
absent from the output. -/
theorem closed_positions_excluded (txs : List Tx) (prices : String → Bool → ℚ) :
    (get_portfolio_summary txs prices).1 =
      ((reduce txs).filter fun p => 0 < p.2.quantity).map
        (fun p => mkLine prices p.1 p.2) ∧
    (get_portfolio_summary txs prices).2.1 =
      pyInt (((reduce txs).filter fun p => 0 < p.2.quantity).map
        fun p => p.2.total_cost).sum ∧
    (get_portfolio_summary txs prices).2.2.2.2 =
      pyInt (((reduce txs).filter fun p => 0 < p.2.quantity).map
        fun p => p.2.realized_profit).sum := by
  by_cases he : txs.isEmpty = true
  · have hnil : txs = [] := by
      cases txs with
      | nil => rfl
      | cons a l => simp [List.isEmpty] at he
    subst hnil
    refine ⟨rfl, ?_, ?_⟩ <;>
      simp [get_portfolio_summary, reduce, reduceFrom, pyInt]
  · unfold get_portfolio_summary
    rw [if_neg he, assembleGo_eq]
    exact ⟨rfl, rfl, rfl⟩

theorem lookupAgg_isSome_of_mem (s : Summary) (c : String)
    (h : c ∈ s.map Prod.fst) : (lookupAgg s c).isSome := by
  induction s with
  | nil => simp at h
  | cons p rest ih =>
      obtain ⟨c0, a0⟩ := p
      by_cases hc : c0 = c
      · subst hc; simp [lookupAgg]
      · have : c ∈ rest.map Prod.fst := by
          simp only [List.map_cons, List.mem_cons] at h
          rcases h with h | h
          · exact absurd h.symm hc
          · exact h
        simp [lookupAgg, hc, ih this]

theorem getAgg_name_eq_firstNameOf (txs : List Tx) (c : String)
    (h : c ∈ (reduce txs).map Prod.fst) :
    (getAgg (reduce txs) c).name = firstNameOf txs c := by
  have hs := lookupAgg_isSome_of_mem (reduce txs) c h
  have hn := nameOf_reduceFrom txs [] c
  rw [← reduce] at hn
  obtain ⟨a, ha⟩ := Option.isSome_iff_exists.mp hs
  rw [ha] at hn
  simp only [lookupAgg] at hn
  simp only [Option.map_some', Option.map_none', Option.none_or] at hn
  rw [getAgg, ha, Option.getD_some, firstNameOf, ← hn, Option.getD_some]

/-- C10: the assembler's lines appear in the order of each instrument's first
occurrence in the ledger, restricted to instruments with strictly positive
quantity, and each line's display name is the one carried by that
instrument's first transaction. -/
theorem lines_order_and_names (txs : List Tx) (prices : String → Bool → ℚ) :
    ((get_portfolio_summary txs prices).1.map fun l => (l.code, l.name)) =
      (((firstCodes txs).filter
          fun c => 0 < (getAgg (reduce txs) c).quantity).map
        fun c => (c, firstNameOf txs c)) := by
  have hkeys : (reduce txs).map Prod.fst = firstCodes txs := by
    rw [reduce, keys_reduceFrom txs [], List.map_nil, firstCodes]
  by_cases he : txs.isEmpty = true
  · have hnil : txs = [] := by
      cases txs with
      | nil => rfl
      | cons a l => simp [List.isEmpty] at he
    subst hnil
    simp [get_portfolio_summary, firstCodes, firstCodesFrom]
  · have hlines : (get_portfolio_summary txs prices).1 =
        ((reduce txs).filter fun p => 0 < p.2.quantity).map
          (fun p => mkLine prices p.1 p.2) := by
      unfold get_portfolio_summary
      rw [if_neg he]
      show (assembleGo prices (reduce txs)).1 = _
      rw [assembleGo_eq]
    rw [hlines, List.map_map]
    have h1 : (((reduce txs).filter fun p => 0 < p.2.quantity).map
        ((fun l => (l.code, l.name)) ∘ fun p => mkLine prices p.1 p.2)) =
        (((reduce txs).filter fun p => 0 < p.2.quantity).map
          fun p => (p.1, p.2.name)) :=
      List.map_congr_left (fun p _ => rfl)
    rw [h1, filter_map_keys (reduce txs)
      (keysNodup_reduceFrom txs [] (by simp)), hkeys]
    apply List.map_congr_left
    intro c hc
    have hcm : c ∈ firstCodes txs := List.mem_of_mem_filter hc
    rw [getAgg_name_eq_firstNameOf txs c (hkeys ▸ hcm)]

/-- C2 counterexample: with an exact cost basis of 100000.4 and an exact
market value of 100000.6, the emitted line and the totals report both as
100000 — `int()` truncates — whereas the claim asserts the market value is
reported as 100001 by nearest-integer rounding. -/
theorem rounding_counterexample :
    (assembleGo (flatPrice (1000006/10000)) (reduce [txFee04])).2.1 =
      1000004/10 ∧
    (assembleGo (flatPrice (1000006/10000)) (reduce [txFee04])).2.2.1 =
      1000006/10 ∧
    ((get_portfolio_summary [txFee04] (flatPrice (1000006/10000))).1.map
        fun l => (l.total_cost, l.market_value)) = [(100000, 100000)] ∧
    (get_portfolio_summary [txFee04] (flatPrice (1000006/10000))).2.2.1 =
      100000 ∧
    (100000 : ℤ) ≠ 100001 := by
  refine ⟨?_, ?_, ?_, ?_, by norm_num⟩ <;>
    norm_num [get_portfolio_summary, reduce, reduceFrom, applyTx, updateAgg,
      initAgg, getAgg, lookupAgg, avgPrice, assembleGo, mkLine, pyInt,
      pyRound2, roundHalfEven, flatPrice, txFee04]

/-- C2 (amended): monetary outputs are truncated toward zero by `int()` —
both 100000.4 and 100000.6 report as 100000 — while `avg_buy_price` and
`current_price` are rounded to two decimal places (a current price of 60.026
reports as 60.03, not 60); for nonnegative values `pyInt` never rounds up. -/
theorem rounding_truncates :
    ((get_portfolio_summary [txFee04] (flatPrice (1000006/10000))).1.map
        fun l => (l.total_cost, l.market_value)) = [(100000, 100000)] ∧
    ((get_portfolio_summary [txFee04] (flatPrice (60026/1000))).1.map
        fun l => (l.avg_buy_price, l.current_price)) = [(100, 6003/100)] ∧
    (∀ q : ℚ, 0 ≤ q → (pyInt q : ℚ) ≤ q ∧ q < (pyInt q : ℚ) + 1) := by
  refine ⟨?_, ?_, ?_⟩
  · norm_num [get_portfolio_summary, reduce, reduceFrom, applyTx, updateAgg,
      initAgg, getAgg, lookupAgg, avgPrice, assembleGo, mkLine, pyInt,
      pyRound2, roundHalfEven, flatPrice, txFee04]
  · norm_num [get_portfolio_summary, reduce, reduceFrom, applyTx, updateAgg,
      initAgg, getAgg, lookupAgg, avgPrice, assembleGo, mkLine, pyInt,
      pyRound2, roundHalfEven, flatPrice, txFee04]
  · intro q hq
    rw [pyInt, if_neg (not_lt.mpr hq)]
    constructor
    · exact_mod_cast Int.floor_le q
    · exact_mod_cast Int.lt_floor_add_one q

theorem rounding_truncates_witness :
    (0 : ℚ) ≤ 3/2 ∧
    ((pyInt (3/2) : ℚ) ≤ 3/2 ∧ (3/2 : ℚ) < (pyInt (3/2) : ℚ) + 1) :=
  ⟨by norm_num, rounding_truncates.2.2 (3/2) (by norm_num)⟩

/-! ### Evaluating binary64 rounding at concrete values -/

theorem roundHalfEven_intCast (n : ℤ) : roundHalfEven (n : ℚ) = n := by
  unfold roundHalfEven
  rw [Int.floor_intCast]
  norm_num

theorem int_log2_eq {x : ℚ} {e : ℤ} (h1 : (2:ℚ)^e ≤ x) (h2 : x < (2:ℚ)^(e+1)) :
    Int.log 2 x = e := by
  have hx : 0 < x := lt_of_lt_of_le (zpow_pos (by norm_num) e) h1
  have hb2 : ((2:ℕ):ℚ) = (2:ℚ) := by norm_num
  have hle : e ≤ Int.log 2 x := by
    rw [← Int.zpow_le_iff_le_log one_lt_two hx, hb2]
    exact h1
  have hlt : Int.log 2 x < e + 1 := by
    rw [← Int.lt_zpow_iff_log_lt one_lt_two hx, hb2]
    exact h2
  omega

theorem fl64_eval (x : ℚ) (e : ℕ) (he : e ≤ 52) (m : ℤ)
    (h1 : (2:ℚ)^e ≤ x) (h2 : x < 2^(e+1))
    (hm : roundHalfEven (x * 2^(52 - e)) = m) :
    fl64 x = (m : ℚ) / 2^(52 - e) := by
  have hx : 0 < x := lt_of_lt_of_le (by positivity) h1
  have hlog : Int.log 2 x = (e : ℤ) := by
    apply int_log2_eq
    · rw [zpow_natCast]; exact h1
    · have hc : ((e:ℤ)+1) = ((e+1 : ℕ) : ℤ) := by push_cast; ring
      rw [hc, zpow_natCast]; exact h2
  have hnz : ¬ x = 0 := ne_of_gt hx
  have hneg : ¬ x < 0 := not_lt.mpr (le_of_lt hx)
  have habs : |x| = x := abs_of_pos hx
  unfold fl64
  rw [if_neg hnz, if_neg hneg, habs, hlog]
  have hcast : (52:ℤ) - (e:ℤ) = ((52 - e : ℕ) : ℤ) := by omega
  rw [hcast, zpow_natCast, hm]
  have h2p : (2:ℚ)^((e:ℤ) - 52) = ((2:ℚ)^((52 - e : ℕ)))⁻¹ := by
    have h1' : (e:ℤ) - 52 = -(((52 - e : ℕ)):ℤ) := by omega
    rw [h1', zpow_neg, zpow_natCast]
  rw [h2p, div_eq_mul_inv]

theorem fl64_fix (x : ℚ) (e : ℕ) (he : e ≤ 52) (n : ℤ)
    (h1 : (2:ℚ)^e ≤ x) (h2 : x < 2^(e+1))
    (hn : x * 2^(52 - e) = (n : ℚ)) :
    fl64 x = x := by
  have hne : ((2:ℚ)^(52 - e)) ≠ 0 := by positivity
  have h := fl64_eval x e he n h1 h2 (by rw [hn, roundHalfEven_intCast])
  rw [h, ← hn, mul_div_assoc, div_self hne, mul_one]

theorem fl64_zero : fl64 0 = 0 := by simp [fl64]

theorem fl64_80 : fl64 (80:ℚ) = 80 :=
  fl64_fix 80 6 (by norm_num) 5629499534213120 (by norm_num) (by norm_num)
    (by norm_num)

theorem fl64_1000 : fl64 (1000:ℚ) = 1000 :=
  fl64_fix 1000 9 (by norm_num) 8796093022208000 (by norm_num) (by norm_num)
    (by norm_num)

theorem fl64_2000 : fl64 (2000:ℚ) = 2000 :=
  fl64_fix 2000 10 (by norm_num) 8796093022208000 (by norm_num) (by norm_num)
    (by norm_num)

theorem fl64_50000 : fl64 (50000:ℚ) = 50000 :=
  fl64_fix 50000 15 (by norm_num) 6871947673600000 (by norm_num) (by norm_num)
    (by norm_num)

theorem fl64_50020 : fl64 (50020:ℚ) = 50020 :=
  fl64_fix 50020 15 (by norm_num) 6874696452669440 (by norm_num) (by norm_num)
    (by norm_num)

theorem fl64_70000 : fl64 (70000:ℚ) = 70000 :=
  fl64_fix 70000 16 (by norm_num) 4810363371520000 (by norm_num) (by norm_num)
    (by norm_num)

theorem fl64_70020 : fl64 (70020:ℚ) = 70020 :=
  fl64_fix 70020 16 (by norm_num) 4811737761054720 (by norm_num) (by norm_num)
    (by norm_num)

theorem fl64_120040 : fl64 (120040:ℚ) = 120040 :=
  fl64_fix 120040 16 (by norm_num) 8249085987389440 (by norm_num) (by norm_num)
    (by norm_num)

theorem fl64_160000 : fl64 (160000:ℚ) = 160000 :=
  fl64_fix 160000 17 (by norm_num) 5497558138880000 (by norm_num) (by norm_num)
    (by norm_num)

/-- `80 - avg` is exactly representable, so the subtraction is exact. -/
theorem fl64_diff :
    fl64 ((2811935017339453:ℚ)/140737488355328) =
      (2811935017339453:ℚ)/140737488355328 :=
  fl64_fix _ 4 (by norm_num) 5623870034678906 (by norm_num) (by norm_num)
    (by norm_num)

/-- The product double is a fixed point of rounding. -/
theorem fl64_prodFix :
    fl64 ((5492060580741119:ℚ)/137438953472) =
      (5492060580741119:ℚ)/137438953472 :=
  fl64_fix _ 15 (by norm_num) 5492060580741119 (by norm_num) (by norm_num)
    (by norm_num)

/-- `120040.0/2000.0` rounds up: the double nearest 60.02 lies just above it. -/
theorem fl64_avg :
    fl64 ((3001:ℚ)/50) = (8447064051086787:ℚ)/140737488355328 := by
  have hm : roundHalfEven ((3001:ℚ)/50 * 2^(52 - 5)) = 8447064051086787 := by
    norm_num [roundHalfEven]
  have h := fl64_eval ((3001:ℚ)/50) 5 (by norm_num) 8447064051086787
    (by norm_num) (by norm_num) hm
  rw [h]; norm_num

/-- `(80 - avg) * 2000` rounds down to the double just below 39960. -/
theorem fl64_prod :
    fl64 ((351491877167431625:ℚ)/8796093022208) =
      (5492060580741119:ℚ)/137438953472 := by
  have hm : roundHalfEven ((351491877167431625:ℚ)/8796093022208 * 2^(52 - 15)) =
      5492060580741119 := by
    norm_num [roundHalfEven]
  have h := fl64_eval ((351491877167431625:ℚ)/8796093022208) 15 (by norm_num)
    5492060580741119 (by norm_num) (by norm_num) hm
  rw [h]; norm_num

/-! ### The two-buy scenario under binary64 arithmetic -/

theorem otc_2330 : strEndsWith "2330.TW" ".TWO" = false := by decide

theorem applyTxF_B50 :
    applyTxF [] txB50 =
      [("2330.TW", ⟨"TSMC", 1000, 50020, 1000, 0, false⟩)] := by
  norm_num [applyTxF, updateAggF, initAgg, txB50, fadd, fmul, otc_2330,
    fl64_1000, fl64_50000, fl64_50020, fl64_zero]

theorem applyTxF_B70 :
    applyTxF [("2330.TW", ⟨"TSMC", 1000, 50020, 1000, 0, false⟩)] txB70 =
      [("2330.TW", ⟨"TSMC", 2000, 120040, 2000, 0, false⟩)] := by
  norm_num [applyTxF, updateAggF, txB70, fadd, fmul,
    fl64_2000, fl64_70000, fl64_70020, fl64_120040]

theorem reduceF_two_buys :
    reduceF [txB50, txB70] =
      [("2330.TW", ⟨"TSMC", 2000, 120040, 2000, 0, false⟩)] := by
  have h : reduceF [txB50, txB70] = applyTxF (applyTxF [] txB50) txB70 := rfl
  rw [h, applyTxF_B50, applyTxF_B70]

theorem avgPriceF_two_buys :
    avgPriceF ⟨"TSMC", 2000, 120040, 2000, 0, false⟩ =
      (8447064051086787:ℚ)/140737488355328 := by
  have harg : (120040:ℚ)/2000 = 3001/50 := by norm_num
  simp only [avgPriceF, fdiv]
  rw [if_pos (by norm_num), harg, fl64_avg]

theorem unrealizedF_two_buys :
    fmul (fsub (80:ℚ) ((8447064051086787:ℚ)/140737488355328)) 2000 =
      (5492060580741119:ℚ)/137438953472 := by
  have hsub : (80:ℚ) - (8447064051086787:ℚ)/140737488355328 =
      (2811935017339453:ℚ)/140737488355328 := by norm_num
  have hmul : (2811935017339453:ℚ)/140737488355328 * 2000 =
      (351491877167431625:ℚ)/8796093022208 := by norm_num
  rw [fsub, hsub, fl64_diff, fmul, hmul, fl64_prod]

theorem pyInt_prod : pyInt ((5492060580741119:ℚ)/137438953472) = 39959 := by
  norm_num [pyInt]

theorem pyRound2_avgD :
    pyRound2 ((8447064051086787:ℚ)/140737488355328) = 3001/50 := by
  norm_num [pyRound2, roundHalfEven]

theorem fmul_2000_80 : fmul (2000:ℚ) 80 = 160000 := by
  rw [fmul]; norm_num [fl64_160000]

theorem mkLineF_two_buys :
    mkLineF (flatPrice 80) "2330.TW" ⟨"TSMC", 2000, 120040, 2000, 0, false⟩ =
      ⟨"2330.TW", "TSMC", 2000, (8447064051086787:ℚ)/140737488355328, 80,
        120040, 160000, 39959, 0⟩ := by
  have h80r : pyRound2 (80:ℚ) = 80 := by norm_num [pyRound2, roundHalfEven]
  norm_num [mkLineF, flatPrice, avgPriceF_two_buys, pyRound2F,
    pyRound2_avgD, h80r, fl64_avg, fl64_80, fmul_2000_80,
    unrealizedF_two_buys, pyInt, Line.mk.injEq]

theorem assembleGoF_two_buys :
    assembleGoF (flatPrice 80)
      [("2330.TW", ⟨"TSMC", 2000, 120040, 2000, 0, false⟩)]
      ([], 0, 0, 0, 0) =
      ([⟨"2330.TW", "TSMC", 2000, (8447064051086787:ℚ)/140737488355328, 80,
          120040, 160000, 39959, 0⟩], 120040, 160000,
        (5492060580741119:ℚ)/137438953472, 0) := by
  have ht : fadd (0:ℚ) 120040 = 120040 := by
    rw [fadd, zero_add, fl64_120040]
  have hm : fadd (0:ℚ) 160000 = 160000 := by
    rw [fadd, zero_add, fl64_160000]
  have hz : fadd (0:ℚ) 0 = 0 := by
    rw [fadd, zero_add, fl64_zero]
  have hu : fadd (0:ℚ) ((5492060580741119:ℚ)/137438953472) =
      (5492060580741119:ℚ)/137438953472 := by
    rw [fadd, zero_add, fl64_prodFix]
  norm_num [assembleGoF, flatPrice, avgPriceF_two_buys, fmul_2000_80,
    unrealizedF_two_buys, mkLineF_two_buys, ht, hm, hz, hu]

theorem summaryF_two_buys :
    get_portfolio_summaryF [txB50, txB70] (flatPrice 80) =
      ([⟨"2330.TW", "TSMC", 2000, (8447064051086787:ℚ)/140737488355328, 80,
          120040, 160000, 39959, 0⟩], 120040, 160000, 39959, 0) := by
  have he : ([txB50, txB70].isEmpty) = false := rfl
  simp only [get_portfolio_summaryF, he, Bool.false_eq_true, if_false,
    reduceF_two_buys, assembleGoF_two_buys]
  norm_num [pyInt_prod, pyInt]

/-- C5 counterexample: under binary64 float semantics — the arithmetic the
Python program actually uses — the two-buy scenario at price 80 reports an
unrealized profit of 39959, not 39960: `120040.0/2000.0` is the double just
above 60.02, so `(80 - avg) * 2000` falls just below 39960 and `int()`
truncates it. -/
theorem scenario_two_buys_counterexample :
    ((get_portfolio_summaryF [txB50, txB70] (flatPrice 80)).1.map
        fun l => l.unrealized_profit) = [39959] ∧
    (get_portfolio_summaryF [txB50, txB70] (flatPrice 80)).2.2.2.1 = 39959 ∧
    (39959 : ℤ) ≠ 39960 := by
  rw [summaryF_two_buys]
  norm_num

/-- C5 (amended): for Buy 1000 at 50 then Buy 1000 at 70 (fee 20 each), the
binary64 replay still yields the exact `total_cost = 120040`,
`buy_quantity = 2000` and `quantity = 2000` (these integers are exact in
doubles); the computed average `120040.0/2000.0` is the double
`8447064051086787 / 2^47`, slightly above 60.02, which still displays as
60.02 after two-decimal rounding; with current price 80 the emitted line
reports market value 160000 and unrealized profit
`int((80 - avg) * 2000) = 39959`. -/
theorem scenario_two_buys_float :
    (getAgg (reduceF [txB50, txB70]) "2330.TW").total_cost = 120040 ∧
    (getAgg (reduceF [txB50, txB70]) "2330.TW").buy_quantity = 2000 ∧
    (getAgg (reduceF [txB50, txB70]) "2330.TW").quantity = 2000 ∧
    avgPriceF (getAgg (reduceF [txB50, txB70]) "2330.TW") =
      (8447064051086787:ℚ)/140737488355328 ∧
    6002/100 < avgPriceF (getAgg (reduceF [txB50, txB70]) "2330.TW") ∧
    pyRound2 (avgPriceF (getAgg (reduceF [txB50, txB70]) "2330.TW")) =
      6002/100 ∧
    (get_portfolio_summaryF [txB50, txB70] (flatPrice 80)).1 =
      [⟨"2330.TW", "TSMC", 2000, (8447064051086787:ℚ)/140737488355328, 80,
        120040, 160000, 39959, 0⟩] ∧
    (get_portfolio_summaryF [txB50, txB70] (flatPrice 80)).2.2.2.1 = 39959 := by
  have hget : getAgg (reduceF [txB50, txB70]) "2330.TW" =
      ⟨"TSMC", 2000, 120040, 2000, 0, false⟩ := by
    rw [reduceF_two_buys]
    simp [getAgg, lookupAgg]
  rw [summaryF_two_buys, hget]
  refine ⟨rfl, rfl, rfl, avgPriceF_two_buys, ?_, ?_, rfl, rfl⟩
  · rw [avgPriceF_two_buys]; norm_num
  · rw [avgPriceF_two_buys, pyRound2_avgD]; norm_num
